import Mathlib

/-
Verification of the Article extraction and normalisation pipeline of
`pre_render/posts_generator.py` (class `Article`).

Python strings are modelled as Lean `String`s, and the string primitives the
code uses (`str.strip`, `str.split()`, `str.lower`, slicing, `int(...)`,
`"{:02d}".format(...)`, `re.sub('[^a-zA-Z0-9s\_]', '', ...)`,
`str.replace("?", "e")`) are given explicit character-list level definitions.
XML lookups (`soup.find(...)` / `soup.find_all(...)`) are modelled by passing
the looked-up text directly to each extractor; a tag that may be absent
becomes an `Option`, and a Python exception that escapes becomes
`Except.error`.
-/

namespace PostsGenerator

deriving instance DecidableEq for Except

/-! ### Python string primitives -/

/-- Python `str.strip()`: remove leading and trailing whitespace characters.
(Python also strips `\f`, `\v` and Unicode spaces; the inputs relevant here
use only the four common whitespace characters covered by
`Char.isWhitespace`.) -/
def pyStrip (s : String) : String :=
  ⟨((s.data.dropWhile Char.isWhitespace).reverse.dropWhile Char.isWhitespace).reverse⟩

/-- Python `str.lower()`. `Char.toLower` lowers exactly the ASCII letters,
which matches Python on all ASCII input; the code only ever compares the
result against ASCII keys or has already filtered to ASCII. -/
def pyLower (s : String) : String := ⟨s.data.map Char.toLower⟩

/-- Helper for `pySplit`: `cur` is the (reversed) word being accumulated. -/
def pySplitAux : List Char → List Char → List String
  | cur, [] => if cur.isEmpty then [] else [⟨cur.reverse⟩]
  | cur, c :: cs =>
    if c.isWhitespace then
      if cur.isEmpty then pySplitAux [] cs else ⟨cur.reverse⟩ :: pySplitAux [] cs
    else pySplitAux (c :: cur) cs

/-- Python `str.split()` with no argument: split on runs of whitespace,
discarding empty pieces. -/
def pySplit (s : String) : List String := pySplitAux [] s.data

/-- Helper for `pyInt`: a non-empty all-digit run parses to its value with the
given sign, anything else fails. -/
def pyIntDigits (sign : Int) (ds : List Char) : Option Int :=
  if ds ≠ [] ∧ ds.all Char.isDigit then
    some (sign * Int.ofNat (ds.foldl (fun acc c => acc * 10 + (c.toNat - 48)) 0))
  else none

/-- Python `int(...)` applied to a string: surrounding whitespace is ignored,
an optional sign is followed by at least one ASCII digit; anything else raises
`ValueError` (modelled as `none`).  Pythons underscore digit separators and
non-ASCII digits are not modelled; no input exercised here uses them. -/
def pyInt (s : String) : Option Int :=
  match (pyStrip s).data with
  | '+' :: ds => pyIntDigits 1 ds
  | '-' :: ds => pyIntDigits (-1) ds
  | ds => pyIntDigits 1 ds

/-- Python `"{:02d}".format(n)`: decimal representation, left-padded with one
`'0'` when it is a single character. -/
def format02d (n : Int) : String :=
  let s := toString n
  if s.length < 2 then "0" ++ s else s

/-- Python `str.replace("?", "e")`: with a one-character pattern this replaces
every occurrence of `'?'` by `'e'`. -/
def replaceQ (s : String) : String := ⟨s.data.map (fun c => if c = '?' then 'e' else c)⟩

/-! ### Field extractors (`Article.toFind*`) -/

/-- Lines 108-112 (`toFindTitle`): the first ArticleTitle tag's text, with the
last character dropped when it is a period (`endswith('.')` / `title[:-1]`). -/
def toFindTitle (title : String) : String :=
  if title.data.getLast? = some '.' then ⟨title.data.dropLast⟩ else title

/-- One AbstractText child of the Abstract container: its optional `Label`
attribute and its text. -/
structure AbstractText where
  label : Option String
  text : String
deriving DecidableEq

/-- Lines 125-129 (`toFindAbstract` loop): each child contributes
`i["Label"] + ': ' + i.text`; a child with no Label attribute raises
`KeyError`, which aborts the whole loop (`none`). -/
def buildAbstractList : List AbstractText → Option (List String)
  | [] => some []
  | i :: rest =>
    match i.label with
    | none => none
    | some lab => (buildAbstractList rest).map (fun l => (lab ++ ": " ++ i.text) :: l)

/-- Lines 118-133 (`toFindAbstract`): with no AbstractText children the
container's full text is used; otherwise the labelled segments are joined by
`'\n\n'`, falling back to the full text when the loop raised `KeyError`.
The result is prefixed by the fixed heading. -/
def toFindAbstract (raw_abstract_text : String)
    (raw_abstract_children : List AbstractText) : String :=
  "# Abstract:\n\n" ++
    (if raw_abstract_children.isEmpty then raw_abstract_text
     else
       match buildAbstractList raw_abstract_children with
       | some abstract_list => String.intercalate "\n\n" abstract_list
       | none => raw_abstract_text)

/-- One Author element of the record: optional LastName and ForeName tags and
the texts of its Affiliation tags, in order. -/
structure RawAuthor where
  lastName : Option String
  foreName : Option String
  affils : List String
deriving DecidableEq

/-- Lines 158-165 (`toFindAuthors` inner loop): each affiliation text is
appended to the global list when not already present, and its index in the
(updated) global list is recorded. -/
def affilLoop : List String → List String → List String × List Nat
  | acc, [] => (acc, [])
  | acc, j :: js =>
    let acc' := if j ∈ acc then acc else acc ++ [j]
    let r := affilLoop acc' js
    (r.1, acc'.indexOf j :: r.2)

/-- Accumulated per-author lists of `toFindAuthors` (the Python locals
`lastname`, `forename`, `affiliations`, `list_affiliations`). -/
structure AuthorsAcc where
  lastname : List String
  forename : List String
  affiliations : List (List Nat)
  list_affiliations : List String
deriving DecidableEq

/-- Lines 146-165 (`toFindAuthors` outer loop): LastName / ForeName falling
back to `"NONE"` when the tag is absent (`AttributeError` caught), and the
affiliation bookkeeping threaded through `affilLoop`. -/
def authorLoop : List String → List RawAuthor → AuthorsAcc
  | acc, [] => ⟨[], [], [], acc⟩
  | acc, i :: rest =>
    let ar := affilLoop acc i.affils
    let r := authorLoop ar.1 rest
    ⟨(match i.lastName with | some t => t | none => "NONE") :: r.lastname,
     (match i.foreName with | some t => t | none => "NONE") :: r.forename,
     ar.2 :: r.affiliations,
     r.list_affiliations⟩

/-- Fields set by `toFindAuthors` (`self.author`, `self.authors`,
`self.affiliations`) together with the loop locals they are computed from. -/
structure AuthorsResult where
  author : String
  authors : String
  affiliations : String
  lastname : List String
  forename : List String
  affilIdx : List (List Nat)
  list_affiliations : List String
deriving DecidableEq

/-- Lines 139-179 (`toFindAuthors`): the per-author loop, then
`authors_list = [a+' '+b for a,b in zip(forename,lastname)]`,
`self.author = authors_list[0]` (IndexError on an empty author list),
the printable block `"  - name: "+a+'\n'` per author with `'?' -> 'e'`, and
`self.affiliations = ' | '.join(list_affiliations)`.  The pandas DataFrame
built on line 169 is a dead local and is not modelled. -/
def toFindAuthors (raw_authors : List RawAuthor) : Except String AuthorsResult :=
  let st := authorLoop [] raw_authors
  let authors_list := List.zipWith (fun a b => a ++ " " ++ b) st.forename st.lastname
  match authors_list with
  | [] => Except.error "IndexError: list index out of range"
  | a0 :: _ =>
    let authors_print := String.join (authors_list.map (fun a => "  - name: " ++ a ++ "\n"))
    Except.ok ⟨a0, replaceQ authors_print, String.intercalate " | " st.list_affiliations,
      st.lastname, st.forename, st.affiliations, st.list_affiliations⟩

/-- Lines 208-227 (`toFixDate`): the fixed month table, with the values
written exactly as in the source (`"{:02d}".format(k)`). -/
def months : List (String × String) :=
  [("jan", format02d 1), ("feb", format02d 2), ("mar", format02d 3),
   ("apr", format02d 4), ("may", format02d 5), ("jun", format02d 6),
   ("jul", format02d 7), ("aug", format02d 8), ("sep", format02d 9),
   ("oct", format02d 10), ("nov", format02d 11), ("dec", format02d 12)]

/-- Lines 223-227 (`toFixDate`): `a = x.strip()[:3].lower()`; dictionary
lookup, with a failed lookup (KeyError, caught by the bare `except`)
re-raised as `ValueError('Not a month')`. -/
def toFixDate (x : String) : Except String String :=
  let a := pyLower ⟨(pyStrip x).data.take 3⟩
  match months.lookup a with
  | some v => Except.ok v
  | none => Except.error "Not a month"

/-- Lines 193-203 (`toFindDate`): the day defaults to `"{:02d}".format(0)`
only when the Day tag is absent (`AttributeError` on `.text` is caught); an
unparsable day text makes `int` raise `ValueError`, which the
`except AttributeError` clause does not catch.  Year and Month tags are
required (an absent tag raises `AttributeError` on `.text`), and the month
goes through `toFixDate`.  The result is `(datelist, date)`. -/
def toFindDate (year month day : Option String) :
    Except String (List String × String) := do
  let i ← match day with
    | none => pure (format02d 0)
    | some d =>
      match pyInt d with
      | some n => pure (format02d n)
      | none => Except.error "ValueError: invalid literal for int"
  let y ← match year with
    | none => Except.error "AttributeError: Year tag absent"
    | some t => pure t
  let m ← match month with
    | none => Except.error "AttributeError: Month tag absent"
    | some t => pure t
  let mm ← toFixDate m
  pure ([y, mm, i], y ++ "-" ++ mm ++ "-" ++ i)

/-- Lines 237-242 (`toFindKeywords`): every Keyword tag's text is appended to
`kw` (duplicates retained), then rendered as `"[" + ', '.join(kw) + "]"`. -/
def toFindKeywords (raw_kw : List String) : String :=
  let kw := raw_kw.foldl (fun acc i => acc ++ [i]) []
  "[" ++ String.intercalate ", " kw ++ "]"

/-! ### Publishing (`Article.toPublish`) -/

/-- Character class kept by `re.sub('[^a-zA-Z0-9s\_]', '', ...)` on line 263:
ASCII letters, ASCII digits and the underscore (the literal `s` in the class
is subsumed by `a-z`). -/
def isKeepChar (c : Char) : Bool := c.isAlpha || c.isDigit || c = '_'

/-- Lines 262-264 (`toPublish`): first six whitespace-separated words of the
title joined by underscores, special characters removed, then lowercased. -/
def title_part (title : String) : String :=
  let t := String.intercalate "_" ((pySplit title).take 6)
  pyLower ⟨t.data.filter isKeepChar⟩

/-- Line 266 (`toPublish`): the slug
`datelist[0] + '_' + datelist[1] + '_' + datelist[2] + '_' + title_part`. -/
def post_name (year month day title : String) : String :=
  year ++ "_" ++ month ++ "_" ++ day ++ "_" ++ title_part title

/-- Lines 272-287 (`toPublish`): the document template, with the
quote-wrapping of title, description and date exactly as in the `.format`
call.  `unidecode` (ASCII transliteration) is applied by the caller to every
field before substitution; the template is modelled on the transliterated
field values, which the structure claims are about. -/
def new_post (title description authors date categories abstract : String) : String :=
  "---\n" ++
  "title: \"" ++ title ++ "\"\n" ++
  "#description: \"" ++ description ++ "\"\n" ++
  "author:\n" ++
  authors ++ "\n" ++
  "date: \"" ++ date ++ "\"\n" ++
  "categories: " ++ categories ++ "\n" ++
  "#image: map.jpg\n" ++
  "format:\n" ++
  "  html:\n" ++
  "    toc: false #No table of content\n" ++
  "engine: knitr\n" ++
  "---\n" ++
  "\n" ++
  abstract ++ "\n" ++
  "        "

/-! ### Claim-side (specification) definitions, for comparison -/

/-- Document structure exactly as claim C1 states it: delimiter, title,
author key with one line per author, date, categories, format/toc, engine,
closing delimiter, blank line, abstract — and nothing else. -/
def claimedPost (title authors date categories abstract : String) : String :=
  String.join
    ["---\n",
     "title: \"" ++ title ++ "\"\n",
     "author:\n",
     authors,
     "date: \"" ++ date ++ "\"\n",
     "categories: " ++ categories ++ "\n",
     "format:\n",
     "  html:\n",
     "    toc: false\n",
     "engine: knitr\n",
     "---\n",
     "\n",
     abstract]

/-- Document structure with the corrections the code forces on claim C1: the
two commented-out metadata lines, the blank line the template leaves after
the author block, the end-of-line comment on the toc line, and the trailing
newline-plus-indentation after the abstract. -/
def amendedPost (title description authors date categories abstract : String) : String :=
  String.join
    ["---\n",
     "title: \"" ++ title ++ "\"\n",
     "#description: \"" ++ description ++ "\"\n",
     "author:\n",
     authors,
     "\n",
     "date: \"" ++ date ++ "\"\n",
     "categories: " ++ categories ++ "\n",
     "#image: map.jpg\n",
     "format:\n",
     "  html:\n",
     "    toc: false #No table of content\n",
     "engine: knitr\n",
     "---\n",
     "\n",
     abstract,
     "\n",
     "        "]

/-- First-seen-order deduplication, written from the specification's words
(one global deduplicated affiliation list, order = first seen). -/
def firstSeen : List String → List String → List String
  | seen, [] => seen
  | seen, x :: xs => firstSeen (if x ∈ seen then seen else seen ++ [x]) xs

/-- Characters the specification allows in a slug: `[a-z0-9_]`. -/
def isSlugChar (c : Char) : Bool := c.isLower || c.isDigit || c = '_'

end PostsGenerator


namespace PostsGenerator

/-! ### Claim C8: title trailing-period stripping -/

/-- C8: the title extractor removes exactly one trailing period when one is
present (a title ending in several periods keeps all but one, since the
argument `s` may itself end in periods) and returns a title whose last
character is not a period unmodified. -/
theorem toFindTitle_strip_one_period (s : String) :
    toFindTitle (s ++ ".") = s ∧
    (s.data.getLast? ≠ some '.' → toFindTitle s = s) := by
  constructor
  · show toFindTitle (s ++ ".") = s
    unfold toFindTitle
    rw [if_pos]
    · apply congrArg String.mk ?_ |>.trans rfl
      rw [String.data_append]
      simp
    · rw [String.data_append]
      simp
  · intro h
    unfold toFindTitle
    rw [if_neg h]

/-- Witness for C8 at concrete titles. -/
theorem toFindTitle_strip_one_period_witness :
    toFindTitle ("Neural correlates of X." ++ ".") = "Neural correlates of X." ∧
    toFindTitle "Neural correlates" = "Neural correlates" :=
  ⟨(toFindTitle_strip_one_period "Neural correlates of X.").1,
   (toFindTitle_strip_one_period "Neural correlates").2 (by decide)⟩

end PostsGenerator

namespace PostsGenerator

/-! ### Claim C4: the date normalizer -/

/-- C4: the month table maps the twelve lowercase abbreviations to the correct
two-digit codes; an input whose first three characters after stripping
whitespace, lowercased, hit the table yields the corresponding code (so any
case and any suffix after those three characters is accepted); any other
input yields the `Not a month` error; and the result depends only on the
first three characters of the stripped input. -/
theorem toFixDate_month_lookup :
    months = [("jan", "01"), ("feb", "02"), ("mar", "03"), ("apr", "04"),
      ("may", "05"), ("jun", "06"), ("jul", "07"), ("aug", "08"),
      ("sep", "09"), ("oct", "10"), ("nov", "11"), ("dec", "12")] ∧
    (∀ x v, months.lookup (pyLower ⟨(pyStrip x).data.take 3⟩) = some v →
      toFixDate x = Except.ok v) ∧
    (∀ x, months.lookup (pyLower ⟨(pyStrip x).data.take 3⟩) = none →
      toFixDate x = Except.error "Not a month") ∧
    (∀ x y, (pyStrip x).data.take 3 = (pyStrip y).data.take 3 →
      toFixDate x = toFixDate y) := by
  refine ⟨by decide, ?_, ?_, ?_⟩
  · intro x v h
    simp only [toFixDate, h]
  · intro x h
    simp only [toFixDate, h]
  · intro x y h
    simp only [toFixDate, h]

/-- Witness for C4: a mixed-case month with a suffix, and a non-month. -/
theorem toFixDate_month_lookup_witness :
    toFixDate " JANUARY 2003" = Except.ok "01" ∧
    toFixDate "Winter" = Except.error "Not a month" :=
  ⟨toFixDate_month_lookup.2.1 " JANUARY 2003" "01" (by decide),
   toFixDate_month_lookup.2.2.1 "Winter" (by decide)⟩

/-! ### Claim C9: keyword rendering -/

/-- C9 corrected: the keywords are rendered as a bracketed comma-joined list
(and the empty list renders as exactly `[]`), but duplicates in the source
record are retained, in order — the field is not deduplicated. -/
theorem toFindKeywords_render (raw_kw : List String) :
    toFindKeywords raw_kw = "[" ++ String.intercalate ", " raw_kw ++ "]" ∧
    toFindKeywords [] = "[]" := by
  constructor
  · unfold toFindKeywords
    have hfold : ∀ (l init : List String),
        l.foldl (fun acc i => acc ++ [i]) init = init ++ l := by
      intro l
      induction l with
      | nil => intro init; simp
      | cons a l ih => intro init; simp [List.foldl_cons, ih]
    rw [hfold, List.nil_append]
  · decide

/-- Counterexample for C9 as stated: a record repeating one keyword tag
renders that keyword twice, unlike the first-seen deduplication the claim
asserts. -/
theorem toFindKeywords_render_cex :
    toFindKeywords ["deep learning", "deep learning"] =
      "[deep learning, deep learning]" ∧
    toFindKeywords ["deep learning", "deep learning"] ≠
      "[" ++ String.intercalate ", " (firstSeen [] ["deep learning", "deep learning"]) ++ "]" := by
  constructor
  · decide
  · decide

end PostsGenerator

namespace PostsGenerator

/-! ### Claim C5: date extraction and the day default -/

/-- C5 corrected: the day component defaults to `"00"` only when the Day tag
is absent; a Day tag whose text is unparsable as an integer is a failure
(the `ValueError` from `int` is not caught by the `except AttributeError`
clause).  Year and Month remain required — an absent Year or Month tag, or a
month rejected by the normalizer, is a failure — and on success the date is
year, two-digit month and day joined by hyphens. -/
theorem toFindDate_day_default (y m : String) :
    (∀ mm, toFixDate m = Except.ok mm →
      toFindDate (some y) (some m) none =
        Except.ok ([y, mm, "00"], y ++ "-" ++ mm ++ "-" ++ "00")) ∧
    (∀ d, pyInt d = none →
      toFindDate (some y) (some m) (some d) =
        Except.error "ValueError: invalid literal for int") ∧
    (∀ d n mm, pyInt d = some n → toFixDate m = Except.ok mm →
      toFindDate (some y) (some m) (some d) =
        Except.ok ([y, mm, format02d n], y ++ "-" ++ mm ++ "-" ++ format02d n)) ∧
    (∀ e, toFixDate m = Except.error e →
      toFindDate (some y) (some m) none = Except.error e) ∧
    toFindDate none (some m) none = Except.error "AttributeError: Year tag absent" ∧
    toFindDate (some y) none none = Except.error "AttributeError: Month tag absent" := by
  refine ⟨?_, ?_, ?_, ?_, ?_, ?_⟩
  · intro mm h
    simp [toFindDate, h, bind, Except.bind, pure, Except.pure,
      show format02d 0 = "00" from by decide]
  · intro d h
    simp [toFindDate, h, bind, Except.bind, pure, Except.pure]
  · intro d n mm h1 h2
    simp [toFindDate, h1, h2, bind, Except.bind, pure, Except.pure]
  · intro e h
    simp [toFindDate, h, bind, Except.bind, pure, Except.pure]
  · simp [toFindDate, bind, Except.bind, pure, Except.pure]
  · simp [toFindDate, bind, Except.bind, pure, Except.pure]

/-- Counterexample for C5 as stated: a Day tag with unparsable text makes the
extractor fail instead of defaulting the day to `"00"`. -/
theorem toFindDate_day_default_cex :
    toFindDate (some "2003") (some "Jan") (some "first") =
      Except.error "ValueError: invalid literal for int" ∧
    toFindDate (some "2003") (some "Jan") (some "first") ≠
      Except.ok (["2003", "01", "00"], "2003-01-00") := by
  constructor
  · decide
  · decide

/-- Witness for C5 (amended): an absent Day tag defaults to `"00"`, a parsable
one is formatted to two digits. -/
theorem toFindDate_day_default_witness :
    toFindDate (some "2003") (some "Mar") none =
      Except.ok (["2003", "03", "00"], "2003" ++ "-" ++ "03" ++ "-" ++ "00") ∧
    toFindDate (some "2003") (some "Mar") (some " 7") =
      Except.ok (["2003", "03", format02d 7], "2003" ++ "-" ++ "03" ++ "-" ++ format02d 7) :=
  ⟨(toFindDate_day_default "2003" "Mar").1 "03" (by decide),
   (toFindDate_day_default "2003" "Mar").2.2.1 " 7" 7 "03" (by decide) (by decide)⟩

end PostsGenerator

namespace PostsGenerator

/-! ### Claim C3: abstract extraction -/

/-- When every child carries a Label attribute the loop completes and yields
one `Label: text` entry per child, in order. -/
theorem buildAbstractList_all_labelled (children : List AbstractText)
    (h : ∀ i ∈ children, i.label ≠ none) :
    buildAbstractList children =
      some (children.map (fun i => i.label.getD "" ++ ": " ++ i.text)) := by
  induction children with
  | nil => rfl
  | cons a l ih =>
    have ha : a.label ≠ none := h a (List.mem_cons_self a l)
    obtain ⟨lab, hlab⟩ := Option.ne_none_iff_exists'.mp ha
    simp only [buildAbstractList, hlab,
      ih (fun i hi => h i (List.mem_cons_of_mem a hi)), Option.map_some',
      List.map_cons, Option.some.injEq, List.cons.injEq]
    exact ⟨rfl, trivial⟩

/-- When some child lacks its Label attribute the loop raises KeyError. -/
theorem buildAbstractList_missing_label (children : List AbstractText)
    (h : ∃ i ∈ children, i.label = none) :
    buildAbstractList children = none := by
  induction children with
  | nil => simp at h
  | cons a l ih =>
    obtain ⟨i, hi, hnone⟩ := h
    rcases List.mem_cons.mp hi with rfl | hi'
    · simp [buildAbstractList, hnone]
    · cases ha : a.label with
      | none => simp [buildAbstractList, ha]
      | some lab => simp [buildAbstractList, ha, ih ⟨i, hi', hnone⟩]

/-- C3: with zero labelled sub-segments the abstract is the heading plus the
container's full raw text; if any sub-segment lacks its label the whole
result falls back to the raw text (all-or-nothing); otherwise it is the
heading plus the `Label: text` entries joined by exactly one blank line. -/
theorem toFindAbstract_cases (raw : String) (children : List AbstractText) :
    (children = [] → toFindAbstract raw children = "# Abstract:\n\n" ++ raw) ∧
    ((∃ i ∈ children, i.label = none) →
      toFindAbstract raw children = "# Abstract:\n\n" ++ raw) ∧
    (children ≠ [] → (∀ i ∈ children, i.label ≠ none) →
      toFindAbstract raw children =
        "# Abstract:\n\n" ++ String.intercalate "\n\n"
          (children.map (fun i => i.label.getD "" ++ ": " ++ i.text))) := by
  refine ⟨?_, ?_, ?_⟩
  · intro h
    subst h
    rfl
  · intro h
    cases children with
    | nil => rfl
    | cons a l =>
      simp only [toFindAbstract, List.isEmpty_cons, Bool.false_eq_true, if_false,
        buildAbstractList_missing_label _ h]
  · intro hne h
    cases children with
    | nil => exact absurd rfl hne
    | cons a l =>
      simp only [toFindAbstract, List.isEmpty_cons, Bool.false_eq_true, if_false,
        buildAbstractList_all_labelled _ h]

/-- Witness for C3: the three cases at concrete records. -/
theorem toFindAbstract_cases_witness :
    toFindAbstract "full raw text" [] = "# Abstract:\n\n" ++ "full raw text" ∧
    toFindAbstract "full raw text" [⟨some "BACKGROUND", "b"⟩, ⟨none, "r"⟩] =
      "# Abstract:\n\n" ++ "full raw text" ∧
    toFindAbstract "full raw text" [⟨some "BACKGROUND", "b"⟩, ⟨some "RESULTS", "r"⟩] =
      "# Abstract:\n\n" ++ String.intercalate "\n\n" ["BACKGROUND: b", "RESULTS: r"] :=
  ⟨(toFindAbstract_cases "full raw text" []).1 rfl,
   (toFindAbstract_cases "full raw text" [⟨some "BACKGROUND", "b"⟩, ⟨none, "r"⟩]).2.1
     ⟨⟨none, "r"⟩, by decide, rfl⟩,
   (toFindAbstract_cases "full raw text"
       [⟨some "BACKGROUND", "b"⟩, ⟨some "RESULTS", "r"⟩]).2.2
     (by decide) (by decide)⟩

end PostsGenerator

namespace PostsGenerator

/-! ### Claims C6 and C10: author extraction -/

/-- The per-author loop records one lastname and one forename per author, in
source order, substituting `"NONE"` for an absent tag. -/
theorem authorLoop_names (l : List RawAuthor) : ∀ acc : List String,
    (authorLoop acc l).lastname = l.map (fun i => i.lastName.getD "NONE") ∧
    (authorLoop acc l).forename = l.map (fun i => i.foreName.getD "NONE") := by
  induction l with
  | nil => intro acc; exact ⟨rfl, rfl⟩
  | cons a l ih =>
    intro acc
    simp only [authorLoop, List.map_cons, (ih _).1, (ih _).2]
    constructor
    · cases a.lastName <;> rfl
    · cases a.foreName <;> rfl

/-- Zipping the forename and lastname columns recovers one `f i ++ " " ++ g i`
entry per author. -/
theorem zipWith_name_columns (f g : RawAuthor → String) (l : List RawAuthor) :
    List.zipWith (fun a b => a ++ " " ++ b) (l.map f) (l.map g) =
      l.map (fun i => f i ++ " " ++ g i) := by
  induction l with
  | nil => rfl
  | cons a l ih => simp [ih]

/-- C6: on any record with at least one author entry, extraction succeeds and
the printable author block concatenates, in source order, one line
`"  - name: {forename} {lastname}\n"` per author, with `"NONE"` substituted
per missing name piece, every `'?'` replaced by `'e'`, and no `'?'` left in
the final block. -/
theorem toFindAuthors_block (raw_authors : List RawAuthor)
    (h : raw_authors ≠ []) :
    ∃ r, toFindAuthors raw_authors = Except.ok r ∧
      r.authors = replaceQ (String.join (raw_authors.map (fun i =>
        "  - name: " ++ i.foreName.getD "NONE" ++ " " ++ i.lastName.getD "NONE" ++ "\n"))) ∧
      r.authors.data.all (fun c => c ≠ '?') = true := by
  simp only [toFindAuthors]
  rw [(authorLoop_names raw_authors []).1, (authorLoop_names raw_authors []).2,
    zipWith_name_columns]
  cases hl : raw_authors.map
      (fun i => i.foreName.getD "NONE" ++ " " ++ i.lastName.getD "NONE") with
  | nil => exact absurd (List.map_eq_nil_iff.mp hl) h
  | cons a0 rest =>
    refine ⟨_, rfl, ?_, ?_⟩
    · show replaceQ (String.join ((a0 :: rest).map (fun a => "  - name: " ++ a ++ "\n"))) = _
      rw [← hl, List.map_map]
      congr 1
    · show (replaceQ (String.join ((a0 :: rest).map (fun a => "  - name: " ++ a ++ "\n")))).data.all
        (fun c => c ≠ '?') = true
      unfold replaceQ
      rw [List.all_eq_true]
      intro c hc
      simp only [String.data] at hc
      obtain ⟨c', _, rfl⟩ := List.mem_map.mp hc
      by_cases h' : c' = '?' <;> simp [h']

/-- Witness for C6: a two-author record, one author missing the last name and
carrying a mis-encoded `'?'`, the other missing the forename. -/
theorem toFindAuthors_block_witness :
    ∃ r, toFindAuthors [⟨none, some "Beno?t", []⟩, ⟨some "Doe", none, []⟩] = Except.ok r ∧
      r.authors = replaceQ (String.join
        (([⟨none, some "Beno?t", []⟩, ⟨some "Doe", none, []⟩] : List RawAuthor).map (fun i =>
          "  - name: " ++ i.foreName.getD "NONE" ++ " " ++ i.lastName.getD "NONE" ++ "\n"))) ∧
      r.authors.data.all (fun c => c ≠ '?') = true :=
  toFindAuthors_block [⟨none, some "Beno?t", []⟩, ⟨some "Doe", none, []⟩] (by decide)

/-- C10: a record with zero author entries fails with the IndexError raised
when the primary author is selected, and Article construction never produces
an empty author list — while any non-empty author list succeeds even when
every individual author field is missing. -/
theorem toFindAuthors_empty_fails :
    toFindAuthors [] = Except.error "IndexError: list index out of range" ∧
    ∀ raw_authors : List RawAuthor, raw_authors ≠ [] →
      (toFindAuthors raw_authors).isOk = true := by
  constructor
  · rfl
  · intro raw_authors h
    simp only [toFindAuthors]
    rw [(authorLoop_names raw_authors []).1, (authorLoop_names raw_authors []).2,
      zipWith_name_columns]
    cases hl : raw_authors.map
        (fun i => i.foreName.getD "NONE" ++ " " ++ i.lastName.getD "NONE") with
    | nil => exact absurd (List.map_eq_nil_iff.mp hl) h
    | cons a0 rest => rfl

/-- Witness for C10: the one-author record whose every field is absent still
constructs. -/
theorem toFindAuthors_empty_fails_witness :
    (toFindAuthors [⟨none, none, []⟩]).isOk = true :=
  toFindAuthors_empty_fails.2 [⟨none, none, []⟩] (by decide)

end PostsGenerator

namespace PostsGenerator

/-! ### Claim C7: affiliation deduplication -/

/-- Membership is preserved and the index of a member is unchanged when a
list is extended on the right. -/
theorem indexOf_append_left (l t : List String) (s : String) (h : s ∈ l) :
    (l ++ t).indexOf s = l.indexOf s := by
  induction l with
  | nil => simp at h
  | cons a l ih =>
    rw [List.cons_append, List.indexOf_cons, List.indexOf_cons]
    cases hb : a == s with
    | true => rfl
    | false =>
      have : s ∈ l := by
        rcases List.mem_cons.mp h with rfl | h'
        · simp at hb
        · exact h'
      rw [Bool.cond_false, Bool.cond_false, ih this]

/-- The inner loop only appends to the global affiliation list. -/
theorem affilLoop_extends (js : List String) : ∀ acc : List String,
    ∃ t, acc ++ t = (affilLoop acc js).1 := by
  induction js with
  | nil => intro acc; exact ⟨[], List.append_nil acc⟩
  | cons j js ih =>
    intro acc
    simp only [affilLoop]
    by_cases hj : j ∈ acc
    · rw [if_pos hj]
      exact ih acc
    · rw [if_neg hj]
      obtain ⟨t, ht⟩ := ih (acc ++ [j])
      exact ⟨[j] ++ t, by rw [← List.append_assoc, ht]⟩

/-- The inner loop computes exactly the first-seen-order deduplication of the
affiliation stream. -/
theorem affilLoop_firstSeen (js : List String) : ∀ acc : List String,
    (affilLoop acc js).1 = firstSeen acc js := by
  induction js with
  | nil => intro acc; rfl
  | cons j js ih =>
    intro acc
    simp only [affilLoop, firstSeen]
    exact ih _

/-- Each index recorded by the inner loop is the position of that affiliation
string in any rightward extension of the loop's final global list. -/
theorem affilLoop_idx (js : List String) : ∀ acc gl : List String,
    (∃ t, (affilLoop acc js).1 ++ t = gl) →
    ∀ (m : Nat) (w : String), js[m]? = some w →
      (affilLoop acc js).2[m]? = some (gl.indexOf w) := by
  induction js with
  | nil =>
    intro acc gl _ m w hm
    simp at hm
  | cons j js ih =>
    intro acc gl hext m w hm
    simp only [affilLoop] at hext ⊢
    have hmem : j ∈ (if j ∈ acc then acc else acc ++ [j]) := by
      by_cases hj : j ∈ acc
      · rw [if_pos hj]; exact hj
      · rw [if_neg hj]; exact List.mem_append_right acc (List.mem_singleton.mpr rfl)
    cases m with
    | zero =>
      have hw : j = w := by simpa using hm
      subst hw
      obtain ⟨t, ht⟩ := hext
      obtain ⟨t', ht'⟩ := affilLoop_extends js (if j ∈ acc then acc else acc ++ [j])
      have : gl = (if j ∈ acc then acc else acc ++ [j]) ++ (t' ++ t) := by
        rw [← List.append_assoc, ht', ht]
      rw [this, indexOf_append_left _ _ _ hmem]
      simp
    | succ m =>
      have hm' : js[m]? = some w := by simpa using hm
      simpa using ih _ gl hext m w hm'

/-- First-seen deduplication of a concatenated stream processes the two parts
in sequence. -/
theorem firstSeen_append (xs ys : List String) : ∀ seen : List String,
    firstSeen seen (xs ++ ys) = firstSeen (firstSeen seen xs) ys := by
  induction xs with
  | nil => intro seen; rfl
  | cons x xs ih =>
    intro seen
    simp only [List.cons_append, firstSeen]
    exact ih _

/-- First-seen deduplication preserves the no-duplicates invariant of the
accumulator. -/
theorem firstSeen_nodup (l : List String) : ∀ seen : List String,
    seen.Nodup → (firstSeen seen l).Nodup := by
  induction l with
  | nil => intro seen h; exact h
  | cons x xs ih =>
    intro seen h
    simp only [firstSeen]
    by_cases hx : x ∈ seen
    · rw [if_pos hx]; exact ih seen h
    · rw [if_neg hx]
      exact ih _ (by simp [List.nodup_append, h, hx])

/-- The outer loop only appends to the global affiliation list. -/
theorem authorLoop_extends (l : List RawAuthor) : ∀ acc : List String,
    ∃ t, acc ++ t = (authorLoop acc l).list_affiliations := by
  induction l with
  | nil => intro acc; exact ⟨[], List.append_nil acc⟩
  | cons a l ih =>
    intro acc
    simp only [authorLoop]
    obtain ⟨t1, ht1⟩ := affilLoop_extends a.affils acc
    obtain ⟨t2, ht2⟩ := ih (affilLoop acc a.affils).1
    exact ⟨t1 ++ t2, by rw [← List.append_assoc, ht1, ht2]⟩

/-- The outer loop's final global list is the first-seen deduplication of the
record's whole affiliation stream. -/
theorem authorLoop_firstSeen (l : List RawAuthor) : ∀ acc : List String,
    (authorLoop acc l).list_affiliations =
      firstSeen acc (l.flatMap (fun i => i.affils)) := by
  induction l with
  | nil => intro acc; rfl
  | cons a l ih =>
    intro acc
    simp only [authorLoop, List.flatMap_cons, firstSeen_append]
    rw [ih, affilLoop_firstSeen]

/-- Every index recorded for author `k`, affiliation position `m`, is the
position of that affiliation string in the final global list (or any
rightward extension of it). -/
theorem authorLoop_idx (l : List RawAuthor) : ∀ acc gl : List String,
    (∃ t, (authorLoop acc l).list_affiliations ++ t = gl) →
    ∀ (k : Nat) (i : RawAuthor), l[k]? = some i →
    ∀ (m : Nat) (w : String), i.affils[m]? = some w →
      ∃ idxs, (authorLoop acc l).affiliations[k]? = some idxs ∧
        idxs[m]? = some (gl.indexOf w) := by
  induction l with
  | nil =>
    intro acc gl _ k i hk
    simp at hk
  | cons a l ih =>
    intro acc gl hext k i hk m w hm
    simp only [authorLoop] at hext ⊢
    cases k with
    | zero =>
      have ha : a = i := by simpa using hk
      subst ha
      refine ⟨(affilLoop acc a.affils).2, by simp, ?_⟩
      apply affilLoop_idx a.affils acc gl ?_ m w hm
      obtain ⟨t, ht⟩ := hext
      obtain ⟨t', ht'⟩ := authorLoop_extends l (affilLoop acc a.affils).1
      exact ⟨t' ++ t, by rw [← List.append_assoc, ht', ht]⟩
    | succ k =>
      have hk' : l[k]? = some i := by simpa using hk
      obtain ⟨idxs, h1, h2⟩ := ih _ gl hext k i hk' m w hm
      exact ⟨idxs, by simpa using h1, h2⟩

/-- C7: after author extraction the global affiliation list has no duplicate
strings and is ordered by first occurrence, every recorded index is the
position of its affiliation string in that list, and any two author entries
carrying an identical affiliation string are assigned the same index. -/
theorem toFindAuthors_affiliation_dedup (raw_authors : List RawAuthor)
    (r : AuthorsResult) (hok : toFindAuthors raw_authors = Except.ok r) :
    r.list_affiliations.Nodup ∧
    r.list_affiliations = firstSeen [] (raw_authors.flatMap (fun i => i.affils)) ∧
    (∀ (k m : Nat) (i : RawAuthor) (w : String),
      raw_authors[k]? = some i → i.affils[m]? = some w →
      ∃ idxs, r.affilIdx[k]? = some idxs ∧
        idxs[m]? = some (r.list_affiliations.indexOf w)) ∧
    (∀ (k1 m1 k2 m2 : Nat) (i1 i2 : RawAuthor) (w : String),
      raw_authors[k1]? = some i1 → i1.affils[m1]? = some w →
      raw_authors[k2]? = some i2 → i2.affils[m2]? = some w →
      ∃ n, (r.affilIdx[k1]?.bind (fun idxs => idxs[m1]?)) = some n ∧
        (r.affilIdx[k2]?.bind (fun idxs => idxs[m2]?)) = some n) := by
  have hfields : r.list_affiliations = (authorLoop [] raw_authors).list_affiliations ∧
      r.affilIdx = (authorLoop [] raw_authors).affiliations := by
    simp only [toFindAuthors] at hok
    rcases hzip : List.zipWith (fun a b => a ++ " " ++ b)
        (authorLoop [] raw_authors).forename (authorLoop [] raw_authors).lastname with
      _ | ⟨a0, rest⟩
    · rw [hzip] at hok
      exact absurd hok (by simp)
    · rw [hzip] at hok
      have := (Except.ok.injEq _ _ ).mp hok
      subst this
      exact ⟨rfl, rfl⟩
  obtain ⟨h1, h2⟩ := hfields
  have hidx : ∀ (k : Nat) (i : RawAuthor), raw_authors[k]? = some i →
      ∀ (m : Nat) (w : String), i.affils[m]? = some w →
      ∃ idxs, r.affilIdx[k]? = some idxs ∧
        idxs[m]? = some (r.list_affiliations.indexOf w) := by
    intro k i hk m w hm
    rw [h1, h2]
    exact authorLoop_idx raw_authors [] _ ⟨[], List.append_nil _⟩ k i hk m w hm
  refine ⟨?_, ?_, fun k m i w hk hm => hidx k i hk m w hm, ?_⟩
  · rw [h1, authorLoop_firstSeen]
    exact firstSeen_nodup _ [] List.nodup_nil
  · rw [h1, authorLoop_firstSeen]
  · intro k1 m1 k2 m2 i1 i2 w hk1 hm1 hk2 hm2
    obtain ⟨idxs1, ha1, hb1⟩ := hidx k1 i1 hk1 m1 w hm1
    obtain ⟨idxs2, ha2, hb2⟩ := hidx k2 i2 hk2 m2 w hm2
    exact ⟨r.list_affiliations.indexOf w, by rw [ha1]; simpa using hb1,
      by rw [ha2]; simpa using hb2⟩

/-- Witness for C7: two authors sharing the affiliation string `"MIT"` are
both assigned index 0, the global list `["MIT", "ETS"]` is duplicate-free
and first-seen ordered. -/
theorem toFindAuthors_affiliation_dedup_witness :
    (["MIT", "ETS"] : List String).Nodup ∧
    (∃ n, ((([[0, 1], [0]] : List (List Nat))[0]?).bind (fun idxs => idxs[0]?)) = some n ∧
      ((([[0, 1], [0]] : List (List Nat))[1]?).bind (fun idxs => idxs[0]?)) = some n) := by
  have h := toFindAuthors_affiliation_dedup
    [⟨none, none, ["MIT", "ETS"]⟩, ⟨none, none, ["MIT"]⟩]
    ⟨"NONE NONE", "  - name: NONE NONE\n  - name: NONE NONE\n", "MIT | ETS",
      ["NONE", "NONE"], ["NONE", "NONE"], [[0, 1], [0]], ["MIT", "ETS"]⟩
    (by decide)
  exact ⟨h.1, h.2.2.2 0 0 1 0 ⟨none, none, ["MIT", "ETS"]⟩ ⟨none, none, ["MIT"]⟩ "MIT"
    (by decide) (by decide) (by decide) (by decide)⟩

end PostsGenerator

namespace PostsGenerator

/-! ### Claim C1: published document structure -/

/-- C1 corrected: the written document is exactly the amended line structure
(title, then the commented-out description line, the author key with the
author block and the blank line the template leaves after it, date,
categories, the commented-out image line, format/toc with its end-of-line
comment, engine, the closing delimiter, a blank line, the abstract — which
always begins with the fixed heading — and a trailing indented line). -/
theorem toPublish_document_structure (title description authors date categories : String)
    (raw : String) (children : List AbstractText) :
    new_post title description authors date categories (toFindAbstract raw children) =
      amendedPost title description authors date categories (toFindAbstract raw children) ∧
    (∃ body, toFindAbstract raw children = "# Abstract:\n\n" ++ body) :=
  ⟨by simp only [new_post, amendedPost, String.join, List.foldl,
      String.append_assoc, String.empty_append], ⟨_, rfl⟩⟩

/-- Counterexample for C1 as stated: at a concrete article the written
document differs from the claimed structure (the template also emits the
`#description:` and `#image:` comment lines, a blank line after the author
block, a comment after `toc: false`, and trailing indentation). -/
theorem toPublish_document_structure_cex :
    new_post "T" "D" "  - name: A B\n" "2003-01-00" "[kw]" "# Abstract:\n\ntext" ≠
      claimedPost "T" "  - name: A B\n" "2003-01-00" "[kw]" "# Abstract:\n\ntext" := by
  decide

/-! ### Claim C2: slug generation -/

/-- Lowercasing a character kept by the slug filter (ASCII letter, digit or
underscore) yields a character in `[a-z0-9_]`. -/
theorem isSlugChar_toLower (c : Char) (h : isKeepChar c = true) :
    isSlugChar c.toLower = true := by
  unfold isKeepChar at h
  unfold isSlugChar
  simp only [Char.toLower]
  split
  · rename_i hc
    obtain ⟨h1, h2⟩ := hc
    generalize hg : Char.toNat c = n at h1 h2
    interval_cases n <;> decide
  · rename_i hc
    simp only [Char.isAlpha, Char.isUpper, Bool.or_eq_true, Bool.and_eq_true,
      decide_eq_true_eq] at h ⊢
    rcases h with ((⟨h1, h2⟩ | h) | h) | h
    · exact absurd ⟨h1, h2⟩ hc
    · exact Or.inl (Or.inl h)
    · exact Or.inl (Or.inr h)
    · exact Or.inr h

/-- A value looked up in an association list is one of its values. -/
theorem lookup_value_mem (k v : String) : ∀ l : List (String × String),
    l.lookup k = some v → v ∈ l.map Prod.snd := by
  intro l
  induction l with
  | nil => intro h; simp [List.lookup] at h
  | cons a l ih =>
    intro h
    obtain ⟨a1, a2⟩ := a
    simp only [List.lookup] at h
    cases hk : (k == a1) with
    | true => rw [hk] at h; simp at h; simp [h]
    | false =>
      rw [hk] at h
      simp only at h
      simp [ih h]

/-- C2 corrected: the slug is the deterministic composition of year, month,
day and the first six whitespace-separated words of the title joined by
underscores, special characters stripped and lowercased; the title part
contains only characters in `[a-z0-9_]`, and so does the whole slug whenever
the year and day components do (the month code produced by the normalizer
always does) — but the year and day components are taken verbatim from the
record, so the whole slug is not unconditionally `[a-z0-9_]`-safe. -/
theorem toPublish_slug_charset (year month day title : String) :
    post_name year month day title =
      year ++ "_" ++ month ++ "_" ++ day ++ "_" ++
        pyLower ⟨(String.intercalate "_" ((pySplit title).take 6)).data.filter isKeepChar⟩ ∧
    (title_part title).data.all isSlugChar = true ∧
    (year.data.all isSlugChar = true → month.data.all isSlugChar = true →
      day.data.all isSlugChar = true →
      (post_name year month day title).data.all isSlugChar = true) ∧
    (∀ x mm, toFixDate x = Except.ok mm → mm.data.all isSlugChar = true) := by
  have hsafe : (title_part title).data.all isSlugChar = true := by
    rw [List.all_eq_true]
    intro c hc
    have hc' : c ∈ ((String.intercalate "_"
        ((pySplit title).take 6)).data.filter isKeepChar).map Char.toLower := hc
    obtain ⟨c', hmem, rfl⟩ := List.mem_map.mp hc'
    exact isSlugChar_toLower c' (List.of_mem_filter hmem)
  refine ⟨rfl, hsafe, ?_, ?_⟩
  · intro hy hm hd
    unfold post_name
    simp [String.data_append, List.all_append, hy, hm, hd, hsafe]
    decide
  · intro x mm h
    simp only [toFixDate] at h
    rcases hl : months.lookup (pyLower ⟨(pyStrip x).data.take 3⟩) with _ | v
    · rw [hl] at h
      exact absurd h (by simp)
    · rw [hl] at h
      simp only [Except.ok.injEq] at h
      subst h
      have hv := lookup_value_mem _ _ months hl
      have hall : (months.map Prod.snd).all (fun s => s.data.all isSlugChar) = true := by
        decide
      exact List.all_eq_true.mp hall _ hv

/-- Counterexample for C2 as stated: the year text is taken verbatim from the
record, so a year such as `"20 BC"` reaches the slug and puts a space and
uppercase letters in it. -/
theorem toPublish_slug_charset_cex :
    toFindDate (some "20 BC") (some "Jan") none =
      Except.ok (["20 BC", "01", "00"], "20 BC-01-00") ∧
    (post_name "20 BC" "01" "00" "Brain mapping of X.").data.all isSlugChar = false := by
  constructor
  · decide
  · decide

/-- Witness for C2 (amended): a digit-only date makes the whole slug safe,
and the month normalizer output is safe. -/
theorem toPublish_slug_charset_witness :
    (post_name "2003" "03" "00" "Brain mapping of X.").data.all isSlugChar = true ∧
    "03".data.all isSlugChar = true :=
  ⟨(toPublish_slug_charset "2003" "03" "00" "Brain mapping of X.").2.2.1
     (by decide) (by decide) (by decide),
   (toPublish_slug_charset "2003" "03" "00" "Brain mapping of X.").2.2.2 "Mar" "03" (by decide)⟩

end PostsGenerator
